import Mathlib

/-!
Verification of the matching-and-classification pipeline of
`src/main.py` (employee-email-matching).

Texts are embedded as lists of characters (`Str`), so that every Python
string primitive the pipeline uses (lower-casing, substring search,
`find`, `count`, `replace`, `split`, `strip`, slicing) becomes an
executable Lean function with the same behaviour on the characters the
program manipulates.  Python `str.lower` is modelled by the ASCII
`Char.toLower` (the CJK characters the program searches for are fixed
points of both).  Python regular expression `\d` (in
`parse_name_and_id`) is modelled by `Char.isDigit`.
-/

/-- A Python string, embedded as its list of characters. -/
abbrev Str := List Char

/-- Python `str.lower`, character by character (ASCII case folding). -/
def lowerStr (s : Str) : Str := s.map Char.toLower

/-- Python substring test `needle in hay`.  As in Python, the empty
needle is a substring of everything. -/
def isSubstr (n : Str) : Str → Bool
  | [] => n.isPrefixOf []
  | c :: rest => n.isPrefixOf (c :: rest) || isSubstr n rest

/-- Python `hay.find(needle)`: the least index at which `needle` starts,
`none` standing for Python's `-1`. -/
def findSub (n : Str) : Str → Option Nat
  | [] => if n.isPrefixOf ([] : Str) then some 0 else none
  | c :: rest =>
    if n.isPrefixOf (c :: rest) then some 0
    else (findSub n rest).map (fun i => i + 1)

/-- Python slice `s[a:b]` (for `0 ≤ a ≤ b`): drop `a` characters, keep
the next `b - a`. -/
def pySlice (a b : Nat) (s : Str) : Str := (s.drop a).take (b - a)

/-- Fuel-driven body of `countSub`; the fuel only serves structural
termination and `hay.length` fuel is always enough, since the needle is
non-empty at every call site. -/
def countSubFuel (n : Str) : Nat → Str → Nat
  | 0, _ => 0
  | _ + 1, [] => 0
  | fuel + 1, c :: rest =>
    if n.isPrefixOf (c :: rest) then
      1 + countSubFuel n fuel ((c :: rest).drop n.length)
    else
      countSubFuel n fuel rest

/-- Python `hay.count(needle)`: non-overlapping occurrences, scanned
left to right (on a match the scan resumes after the matched block).
`main.py` only ever counts the non-empty keywords 修改, 删除, 新增;
for them this agrees with Python (the empty-needle case is mirrored
separately, as Python returns `len + 1` there). -/
def countSub (n : Str) (hay : Str) : Nat :=
  if n = [] then hay.length + 1 else countSubFuel n hay.length hay

/-- Fuel-driven body of `pyReplace`; as with `countSubFuel`, fuel
`hay.length` is always enough for a non-empty pattern. -/
def pyReplaceFuel (old : Str) : Nat → Str → Str
  | 0, rest => rest
  | _ + 1, [] => []
  | fuel + 1, c :: rest =>
    if old.isPrefixOf (c :: rest) then
      pyReplaceFuel old fuel ((c :: rest).drop old.length)
    else
      c :: pyReplaceFuel old fuel rest

/-- Python `hay.replace(old, "")` for a non-empty `old` (the only form
`main.py` uses, with `old` the compound token 修改密码): one left to
right pass deleting non-overlapping occurrences. -/
def pyReplace (old : Str) (hay : Str) : Str :=
  if old = [] then hay else pyReplaceFuel old hay.length hay

/-- Python `s.split(sep)` for a one-character separator: every
occurrence separates, adjacent separators yield empty pieces. -/
def splitCh (sep : Char) : Str → List Str
  | [] => [[]]
  | c :: rest =>
    let r := splitCh sep rest
    if c = sep then [] :: r
    else
      match r with
      | [] => [[c]]
      | piece :: more => (c :: piece) :: more

/-- Python `str.strip()` with no argument: remove leading whitespace. -/
def dropWS (s : Str) : Str := s.dropWhile Char.isWhitespace

/-- Python `str.strip()`: remove leading and trailing whitespace. -/
def pyStrip (s : Str) : Str := dropWS ((dropWS s.reverse).reverse)

example : lowerStr ("AbC").data = ("abc").data := by decide
example : isSubstr ("bc").data ("abcd").data = true := by decide
example : isSubstr ([] : Str) ([] : Str) = true := by decide
example : findSub ("b").data ("abcb").data = some 1 := by decide
example : countSub ("aa").data ("aaaa").data = 2 := by decide
example : pyReplace ("修改密码").data ("修修改密码改").data = ("修改").data := by decide
example : splitCh ',' (",a,").data = [[], [(Char.ofNat 97)], []] := by decide
example : pyStrip ("  a b ").data = ("a b").data := by decide
example : pySlice 1 3 ("abcd").data = ("bc").data := by decide

/-!
Section: Data model

One parsed message (`parse_eml_file` in `main.py` returns a dict with
the fields subject / body / attachments / date).  The date, absent when
the Date header is unparsable, is embedded as `Option Nat`: a timestamp
counted from Python's `datetime.min`, so the value `some 0` is the
earliest representable date and stands for `datetime.min` itself.
-/

/-- One attachment: `{"filename": ..., "text": ...}` in `main.py`;
extraction failure yields empty text. -/
structure AttachmentUnit where
  filename : Str
  text : Str
deriving DecidableEq

/-- One parsed message (the dict built by `parse_eml_file`). -/
structure EmailMsg where
  subject : Str
  body : Str
  attachments : List AttachmentUnit
  date : Option Nat
deriving DecidableEq

/-- `email["subject_lower"]`, precomputed in `process_roster`. -/
def subject_lower (e : EmailMsg) : Str := lowerStr e.subject

/-- `email["body_lower"]`, precomputed in `process_roster`. -/
def body_lower (e : EmailMsg) : Str := lowerStr e.body

/-- `email["attachments_lower"]`: each attachment's text, lower-cased
(`att["text"].lower() if att["text"] else ""` equals plain lower-casing,
since the empty string lower-cases to itself). -/
def attachments_lower (e : EmailMsg) : List Str :=
  e.attachments.map (fun a => lowerStr a.text)

/-- `email["combined_lower"]`: newline-join of subject, body and all
attachment texts, lower-cased. -/
def combined_lower (e : EmailMsg) : Str :=
  (("\n").data).intercalate (subject_lower e :: body_lower e :: attachments_lower e)

/-!
Section: `parse_name_and_id`
-/

/-- Python `re.search(r"\d", s)` restricted to ASCII digits (the digits
the roster ids use). -/
def hasDigit (s : Str) : Bool := s.any Char.isDigit

/-- `parse_name_and_id` of `main.py`: strip the raw field; split on
every comma and strip each part; when that yields exactly two parts the
first becomes the id iff it contains a digit; otherwise the whole
stripped field is the name and the id is empty.  Returns (name, id). -/
def parse_name_and_id (value : Str) : Str × Str :=
  let s := pyStrip value
  if s = [] then ([], [])
  else
    let parts := (splitCh ',' s).map pyStrip
    match parts with
    | [p0, p1] => if hasDigit p0 then (p1, p0) else (p0, p1)
    | _ => (s, [])

/-!
Section: `body_has_valid_match`
-/

/-- The header markers of `body_has_valid_match`:
`trimmed.startswith(("from:", "to:", "cc:", "sent:", "subject:"))`. -/
def header_starts : List Str :=
  [("from:").data, ("to:").data, ("cc:").data, ("sent:").data, ("subject:").data]

/-- Is a line a header line once stripped and lower-cased? -/
def is_header_line (line : Str) : Bool :=
  header_starts.any (fun p => p.isPrefixOf (lowerStr (pyStrip line)))

/-- Does the line contain an `@` sign? -/
def has_at_sign (line : Str) : Bool := line.any (fun c => c == '@')

/-- The manager-proximity test of `body_has_valid_match`: find the first
occurrence of the keyword anywhere in the body and look for the word
"manager" in the 200 characters before it (`full_text[max(0, idx - 200)
: idx]`).  `false` when the keyword does not occur in the body at all
(Python's `idx == -1` branch, which lets the line match stand). -/
def manager_window_hit (body_low keyword_low : Str) : Bool :=
  match findSub keyword_low body_low with
  | some idx => isSubstr ("manager").data (pySlice (idx - 200) idx body_low)
  | none => false

/-- The line loop of `body_has_valid_match`: scan the lines of the body
in order; a line matches when it contains the keyword, is not a header
line, has no `@`, and the (line-independent) manager-proximity test does
not fire; all other lines are skipped via `continue`. -/
def body_scan (body_low keyword_low : Str) : List Str → Bool
  | [] => false
  | line :: rest =>
    if isSubstr keyword_low line then
      if is_header_line line then body_scan body_low keyword_low rest
      else if has_at_sign line then body_scan body_low keyword_low rest
      else if manager_window_hit body_low keyword_low then
        body_scan body_low keyword_low rest
      else true
    else body_scan body_low keyword_low rest

/-- `body_has_valid_match` of `main.py`: split the (already lower-cased)
body at newlines and scan the lines. -/
def body_has_valid_match (body_low keyword_low : Str) : Bool :=
  body_scan body_low keyword_low (splitCh '\n' body_low)

/-!
Section: `determine_scenario`
-/

/-- The keyword 修改 (Modify). -/
def kwModify : Str := ("修改").data

/-- The keyword 删除 (Remove). -/
def kwRemove : Str := ("删除").data

/-- The keyword 新增 (Add), also the default result. -/
def kwAdd : Str := ("新增").data

/-- The compound token 修改密码 (modify-password). -/
def kwModifyPassword : Str := ("修改密码").data

/-- The count-comparison core of `determine_scenario`: the counts dict
in keyword order 修改, 删除, 新增, its maximum, the `top` list of
keywords attaining the maximum, and the default/tie rule. -/
def scenario_core (cModify cRemove cAdd : Nat) : Str :=
  let maxVal := max cModify (max cRemove cAdd)
  if maxVal = 0 then kwAdd
  else
    let top := ([(kwModify, cModify), (kwRemove, cRemove), (kwAdd, cAdd)].filter
      (fun p => p.2 == maxVal)).map Prod.fst
    match top with
    | [k] => k
    | _ => kwAdd

/-- `determine_scenario` of `main.py`: delete occurrences of 修改密码
by one replacement pass, count the three keywords, and return the unique
keyword of maximal count, defaulting to 新增 when the maximum is zero or
attained more than once. -/
def determine_scenario (text_low : Str) : Str :=
  let t := pyReplace kwModifyPassword text_low
  scenario_core (countSub kwModify t) (countSub kwRemove t) (countSub kwAdd t)

/-!
Section: The matcher (the per-message checks inside `process_roster`)
-/

/-- Where a message matched: `main.py` uses the strings 主题 (subject),
正文 (body) and 附件 (attachment). -/
inductive MatchSource where
  | subject
  | body
  | attachment
deriving DecidableEq

/-- The subject check: `name_low and name_low in email["subject_lower"]
or id_low and id_low in email["subject_lower"]` (an empty identifier is
falsy and never matches). -/
def subject_hit (nl il : Str) (e : EmailMsg) : Bool :=
  (!nl.isEmpty && isSubstr nl (subject_lower e)) ||
    (!il.isEmpty && isSubstr il (subject_lower e))

/-- The body check (the `found` flag): name branch, else id branch, each
requiring a raw substring hit plus `body_has_valid_match`; guarded by
`name_low or id_low`. -/
def body_hit (nl il : Str) (e : EmailMsg) : Bool :=
  (!nl.isEmpty || !il.isEmpty) &&
    ((!nl.isEmpty && isSubstr nl (body_lower e) && body_has_valid_match (body_lower e) nl) ||
      (!il.isEmpty && isSubstr il (body_lower e) && body_has_valid_match (body_lower e) il))

/-- The attachment loop: some lower-cased attachment text contains the
name or the id; guarded by `name_low or id_low`. -/
def attachment_hit (nl il : Str) (e : EmailMsg) : Bool :=
  (!nl.isEmpty || !il.isEmpty) &&
    (attachments_lower e).any
      (fun t => (!nl.isEmpty && isSubstr nl t) || (!il.isEmpty && isSubstr il t))

/-- The matcher for one message: `source` starts as `None`; subject is
tried first, then (only if still `None`) the body, then the
attachments. -/
def locate (nl il : Str) (e : EmailMsg) : Option MatchSource :=
  if subject_hit nl il e then some .subject
  else if body_hit nl il e then some .body
  else if attachment_hit nl il e then some .attachment
  else none

/-- The `matches` list of `process_roster`: every message that matched,
paired with where it matched, in archive order. -/
def match_candidates (nl il : Str) (emails : List EmailMsg) :
    List (EmailMsg × MatchSource) :=
  emails.filterMap (fun e => (locate nl il e).map (fun s => (e, s)))

/-!
Section: Selection of the most recent candidate

`matches.sort(key=lambda x: x[0]["date"] or datetime.min, reverse=True)`
followed by `matches[0]`.  Python's sort is stable and `reverse=True`
keeps equal keys in original order, which is exactly a stable descending
insertion sort.
-/

/-- The sort key: the message date, with a missing date replaced by
`datetime.min` (timestamp 0). -/
def dateKey (e : EmailMsg) : Nat :=
  match e.date with
  | some d => d
  | none => 0

/-- Insert into a list already sorted by descending date key, in front
of the first element whose key is not larger (so, among equal keys, in
front of elements that came later in the original list). -/
def insertByDateDesc (x : EmailMsg × MatchSource) :
    List (EmailMsg × MatchSource) → List (EmailMsg × MatchSource)
  | [] => [x]
  | y :: ys =>
    if dateKey y.1 ≤ dateKey x.1 then x :: y :: ys
    else y :: insertByDateDesc x ys

/-- Stable sort by descending date key. -/
def sortByDateDesc (l : List (EmailMsg × MatchSource)) :
    List (EmailMsg × MatchSource) :=
  l.foldr insertByDateDesc []

/-!
Section: Snippet construction and the per-row resolver
-/

/-- The snippet loop for an attachment match: the first attachment whose
lower-cased text contains the name or the id. -/
def find_matching_attachment (nl il : Str) (e : EmailMsg) : Option AttachmentUnit :=
  e.attachments.find? (fun a =>
    (!nl.isEmpty && isSubstr nl (lowerStr a.text)) ||
      (!il.isEmpty && isSubstr il (lowerStr a.text)))

/-- `snippet_source_text` of `process_roster`: body text for a body
match; for an attachment match the text of the first attachment that
contains the identifier, falling back to the body when the loop left the
empty string; for a subject match the body if non-empty, else the
subject. -/
def snippet_source_text (nl il : Str) (e : EmailMsg) (src : MatchSource) : Str :=
  match src with
  | .body => e.body
  | .attachment =>
    let t :=
      match find_matching_attachment nl il e with
      | some a => a.text
      | none => []
    if t = [] then e.body else t
  | .subject => if e.body = [] then e.subject else e.body

/-- One roster row, with the raw 员工名字工号 field and the three
optional pre-existing columns 权限变更场景, 操作是否正确 and
新增/删除场景，是否收到申请邮件. -/
structure RosterRow where
  nameAndId : Str
  changeScenario : Str
  actionCorrect : Str
  receiptConfirmed : Str
deriving DecidableEq

/-- The output row: the three columns after processing, plus 最终判定来源
(`none` stands for the empty marker of unresolved rows), 匹配说明 and
which sheet the row goes to. -/
structure ResultRow where
  changeScenario : Str
  actionCorrect : Str
  receiptConfirmed : Str
  matchSource : Option MatchSource
  matchEvidence : Str
  resolved : Bool
deriving DecidableEq

/-- The emptiness test on the pre-existing scenario value:
`not orig_scen or orig_scen.lower() in {"nan", ""}` (a pandas NaN cell
prints as "nan"). -/
def scen_blank (s : Str) : Bool :=
  s.isEmpty || lowerStr s == ("nan").data || lowerStr s == ([] : Str)

/-- The marker 是 (yes). -/
def yesMark : Str := ("是").data

/-- The marker 未匹配到邮件 (no message matched). -/
def noMatchMark : Str := ("未匹配到邮件").data

/-- The lower-cased (name, id) of a roster row. -/
def row_identity (row : RosterRow) : Str × Str :=
  let p := parse_name_and_id row.nameAndId
  (lowerStr p.1, lowerStr p.2)

/-- The row's `matches` list: every message matched against the row's
lower-cased name and id. -/
def row_candidates (row : RosterRow) (emails : List EmailMsg) :
    List (EmailMsg × MatchSource) :=
  match_candidates (row_identity row).1 (row_identity row).2 emails

/-- The candidate the resolver selects for a row: head of the stable
descending sort of the row's match candidates (`none` iff nothing
matched). -/
def row_selected (row : RosterRow) (emails : List EmailMsg) :
    Option (EmailMsg × MatchSource) :=
  (sortByDateDesc (row_candidates row emails)).head?

/-- The per-row work of `process_roster`: match every message, select
the most recent candidate, classify, build the snippet (truncated to 500
characters), and update the three optional columns — the scenario and
action-correct columns only under `scen_blank`, the receipt column
whenever the computed scenario is 新增 or 删除. -/
def process_row (row : RosterRow) (emails : List EmailMsg) : ResultRow :=
  let nl := (row_identity row).1
  let il := (row_identity row).2
  match row_selected row emails with
  | some (e, src) =>
    let scen := determine_scenario (combined_lower e)
    let t := snippet_source_text nl il e src
    let snippet := if t = [] then ([] : Str) else t.take 500
    { changeScenario := if scen_blank row.changeScenario then scen else row.changeScenario
      actionCorrect := if scen_blank row.changeScenario then yesMark else row.actionCorrect
      receiptConfirmed :=
        if scen == kwAdd || scen == kwRemove then yesMark else row.receiptConfirmed
      matchSource := some src
      matchEvidence := snippet
      resolved := true }
  | none =>
    { changeScenario := row.changeScenario
      actionCorrect := row.actionCorrect
      receiptConfirmed := row.receiptConfirmed
      matchSource := none
      matchEvidence := noMatchMark
      resolved := false }

/-- `process_roster` of `main.py`: route every row, in order, to the
resolved or the unresolved sheet. -/
def process_roster (rows : List RosterRow) (emails : List EmailMsg) :
    List ResultRow × List ResultRow :=
  match rows with
  | [] => ([], [])
  | r :: rest =>
    let out := process_row r emails
    let others := process_roster rest emails
    if out.resolved then (out :: others.1, others.2)
    else (others.1, out :: others.2)

example :
    parse_name_and_id ("张三,10023").data = (("张三").data, ("10023").data) := by decide
example :
    parse_name_and_id ("10023, 张三").data = (("张三").data, ("10023").data) := by decide
example : determine_scenario ("关于10023新增权限申请").data = kwAdd := by decide
example :
    body_has_valid_match ("from: alice\nalice@x\nhello alice").data ("alice").data
      = true := by decide
example :
    body_has_valid_match ("from: alice\nalice@x").data ("alice").data = false := by
  decide
example :
    body_has_valid_match ("manager says\nalice is here").data ("alice").data
      = false := by decide

/-!
Section: Helper lemmas
-/

/-- A non-empty needle only occurs in a non-empty haystack. -/
theorem hay_ne_nil_of_isSubstr {n h : Str} (hn : n ≠ [])
    (hs : isSubstr n h = true) : h ≠ [] := by
  intro he
  subst he
  cases n with
  | nil => exact hn rfl
  | cons c t => simp [isSubstr, List.isPrefixOf] at hs

/-- The line scan succeeds exactly when some line contains the keyword
outside header and `@` context and the (line-independent)
manager-proximity test does not fire. -/
theorem body_scan_eq_true_iff (body kw : Str) (lines : List Str) :
    body_scan body kw lines = true ↔
      ((∃ l ∈ lines, isSubstr kw l = true ∧ is_header_line l = false ∧
          has_at_sign l = false) ∧ manager_window_hit body kw = false) := by
  induction lines with
  | nil => simp [body_scan]
  | cons line rest ih =>
    cases hkw : isSubstr kw line with
    | false => simp [body_scan, hkw, ih]
    | true =>
      cases hh : is_header_line line with
      | true => simp [body_scan, hkw, hh, ih]
      | false =>
        cases ha : has_at_sign line with
        | true => simp [body_scan, hkw, hh, ha, ih]
        | false =>
          cases hm : manager_window_hit body kw with
          | true => simp [body_scan, hkw, hh, ha, hm, ih]
          | false => simp [body_scan, hkw, hh, ha, hm]

/-- `body_has_valid_match`, characterized: a qualifying line exists and
the manager window around the first global occurrence is clean. -/
theorem body_has_valid_match_iff (body kw : Str) :
    body_has_valid_match body kw = true ↔
      ((∃ l ∈ splitCh '\n' body, isSubstr kw l = true ∧
          is_header_line l = false ∧ has_at_sign l = false) ∧
        manager_window_hit body kw = false) :=
  body_scan_eq_true_iff body kw (splitCh '\n' body)

/-- The default/tie rule of `scenario_core`, as one nested conditional:
修改 wins iff it strictly beats both other counts, 删除 wins iff it
strictly beats both other counts, and 新增 results in every other case
(unique 新增 maximum, any tie at the maximum, or all counts zero). -/
theorem scenario_core_spec (a b c : Nat) :
    scenario_core a b c =
      if b < a ∧ c < a then kwModify
      else if a < b ∧ c < b then kwRemove
      else kwAdd := by
  have l4 : a = max a (max b c) ∨ b = max a (max b c) ∨ c = max a (max b c) := by omega
  have l1 : a ≤ max a (max b c) := by omega
  have l2 : b ≤ max a (max b c) := by omega
  have l3 : c ≤ max a (max b c) := by omega
  unfold scenario_core
  set M := max a (max b c) with hM
  by_cases h0 : M = 0
  · have r1 : ¬(b < a ∧ c < a) := by omega
    have r2 : ¬(a < b ∧ c < b) := by omega
    simp [h0, r1, r2]
  · by_cases eA : a = M <;> by_cases eB : b = M <;> by_cases eC : c = M
    · have r1 : ¬(b < a ∧ c < a) := by omega
      have r2 : ¬(a < b ∧ c < b) := by omega
      simp [h0, beq_iff_eq.mpr eA, beq_iff_eq.mpr eB, beq_iff_eq.mpr eC, r1, r2,
        List.filter_cons]
    · have r1 : ¬(b < a ∧ c < a) := by omega
      have r2 : ¬(a < b ∧ c < b) := by omega
      simp [h0, beq_iff_eq.mpr eA, beq_iff_eq.mpr eB, beq_eq_false_iff_ne.mpr eC,
        r1, r2, List.filter_cons]
    · have r1 : ¬(b < a ∧ c < a) := by omega
      have r2 : ¬(a < b ∧ c < b) := by omega
      simp [h0, beq_iff_eq.mpr eA, beq_eq_false_iff_ne.mpr eB, beq_iff_eq.mpr eC,
        r1, r2, List.filter_cons]
    · have r1 : b < a ∧ c < a := by omega
      simp [h0, beq_iff_eq.mpr eA, beq_eq_false_iff_ne.mpr eB,
        beq_eq_false_iff_ne.mpr eC, r1, List.filter_cons]
    · have r1 : ¬(b < a ∧ c < a) := by omega
      have r2 : ¬(a < b ∧ c < b) := by omega
      simp [h0, beq_eq_false_iff_ne.mpr eA, beq_iff_eq.mpr eB, beq_iff_eq.mpr eC,
        r1, r2, List.filter_cons]
    · have r1 : ¬(b < a ∧ c < a) := by omega
      have r2 : a < b ∧ c < b := by omega
      simp [h0, beq_eq_false_iff_ne.mpr eA, beq_iff_eq.mpr eB,
        beq_eq_false_iff_ne.mpr eC, r1, r2, List.filter_cons]
    · have r1 : ¬(b < a ∧ c < a) := by omega
      have r2 : ¬(a < b ∧ c < b) := by omega
      simp [h0, beq_eq_false_iff_ne.mpr eA, beq_eq_false_iff_ne.mpr eB,
        beq_iff_eq.mpr eC, r1, r2, List.filter_cons]
    · omega

/-!
Section: Claim C2
-/

/-- C2 (amended).  After the single left-to-right replacement pass that
deletes non-overlapping occurrences of 修改密码, the classifier returns
修改 iff its count strictly beats both other counts, 删除 iff its count
strictly beats both other counts, and 新增 in every remaining case
(unique 新增 maximum, a tie at the maximum, or all counts zero). -/
theorem claim2_classifier_rule (t : Str) :
    (determine_scenario t = kwModify ↔
      countSub kwRemove (pyReplace kwModifyPassword t) <
          countSub kwModify (pyReplace kwModifyPassword t) ∧
        countSub kwAdd (pyReplace kwModifyPassword t) <
          countSub kwModify (pyReplace kwModifyPassword t)) ∧
    (determine_scenario t = kwRemove ↔
      countSub kwModify (pyReplace kwModifyPassword t) <
          countSub kwRemove (pyReplace kwModifyPassword t) ∧
        countSub kwAdd (pyReplace kwModifyPassword t) <
          countSub kwRemove (pyReplace kwModifyPassword t)) ∧
    (determine_scenario t = kwAdd ↔
      (¬(countSub kwRemove (pyReplace kwModifyPassword t) <
            countSub kwModify (pyReplace kwModifyPassword t) ∧
          countSub kwAdd (pyReplace kwModifyPassword t) <
            countSub kwModify (pyReplace kwModifyPassword t)) ∧
        ¬(countSub kwModify (pyReplace kwModifyPassword t) <
            countSub kwRemove (pyReplace kwModifyPassword t) ∧
          countSub kwAdd (pyReplace kwModifyPassword t) <
            countSub kwRemove (pyReplace kwModifyPassword t)))) := by
  have n1 : kwModify ≠ kwRemove := by decide
  have n2 : kwModify ≠ kwAdd := by decide
  have n3 : kwRemove ≠ kwAdd := by decide
  have hds : determine_scenario t =
      scenario_core (countSub kwModify (pyReplace kwModifyPassword t))
        (countSub kwRemove (pyReplace kwModifyPassword t))
        (countSub kwAdd (pyReplace kwModifyPassword t)) := rfl
  rw [hds, scenario_core_spec]
  set a := countSub kwModify (pyReplace kwModifyPassword t)
  set b := countSub kwRemove (pyReplace kwModifyPassword t)
  set c := countSub kwAdd (pyReplace kwModifyPassword t)
  by_cases p1 : b < a ∧ c < a
  · exact ⟨by simp [p1], by simp [p1, n1]; omega, by simp [p1, n2]⟩
  · by_cases p2 : a < b ∧ c < b
    · exact ⟨by simp [p1, p2, n1.symm], by simp [p1, p2], by simp [p1, p2, n3]⟩
    · refine ⟨?_, ?_, ?_⟩ <;> simp [p1, p2, n2.symm, n3.symm]

/-- Counterexample for C2 as stated.  In 修修改密码改 the only
occurrence of 修改 (first occurrence at index 1, count 1) is exactly the
prefix of the only occurrence of 修改密码 (also at index 1) — there is
no Modify mention outside the password-change compound — yet the
classifier answers 修改: deleting the compound splices the surrounding
修 and 改 into a fresh 修改 that is counted.  The final conjunct shows
the dual phenomenon on 修改密修改密码码: after the single replacement
pass the text still contains the compound token 修改密码 (deleting it
spliced one together), so the pass does not delete every occurrence in
the result, and that surviving compound's 修改 prefix is counted toward
Modify. -/
theorem claim2_counterexample :
    findSub kwModify (("修修改密码改").data) = some 1 ∧
    findSub kwModifyPassword (("修修改密码改").data) = some 1 ∧
    countSub kwModify (("修修改密码改").data) = 1 ∧
    determine_scenario (("修修改密码改").data) = kwModify ∧
    isSubstr kwModifyPassword
      (pyReplace kwModifyPassword (("修改密修改密码码").data)) = true := by decide

/-!
Section: Claim C1
-/

/-- Spec-side contract: the case-folded name or id is a (non-empty)
substring of the case-folded subject. -/
def SubjectMatch (name id : Str) (e : EmailMsg) : Prop :=
  (name ≠ [] ∧ isSubstr (lowerStr name) (subject_lower e) = true) ∨
    (id ≠ [] ∧ isSubstr (lowerStr id) (subject_lower e) = true)

/-- Spec-side contract: the case-folded name or id is a (non-empty)
substring of the case-folded body and passes the filtered body
search. -/
def BodyMatch (name id : Str) (e : EmailMsg) : Prop :=
  (name ≠ [] ∧ isSubstr (lowerStr name) (body_lower e) = true ∧
      body_has_valid_match (body_lower e) (lowerStr name) = true) ∨
    (id ≠ [] ∧ isSubstr (lowerStr id) (body_lower e) = true ∧
      body_has_valid_match (body_lower e) (lowerStr id) = true)

/-- Spec-side contract: some attachment's case-folded text contains the
case-folded name or id. -/
def AttachmentMatch (name id : Str) (e : EmailMsg) : Prop :=
  ∃ t ∈ attachments_lower e,
    (name ≠ [] ∧ isSubstr (lowerStr name) t = true) ∨
      (id ≠ [] ∧ isSubstr (lowerStr id) t = true)

theorem lowerStr_not_isEmpty_iff (s : Str) : (!(lowerStr s).isEmpty) = true ↔ s ≠ [] := by
  cases s <;> simp [lowerStr]

theorem subject_hit_iff (name id : Str) (e : EmailMsg) :
    subject_hit (lowerStr name) (lowerStr id) e = true ↔ SubjectMatch name id e := by
  simp only [subject_hit, SubjectMatch, Bool.or_eq_true, Bool.and_eq_true,
    lowerStr_not_isEmpty_iff]

theorem body_hit_iff (name id : Str) (e : EmailMsg) :
    body_hit (lowerStr name) (lowerStr id) e = true ↔ BodyMatch name id e := by
  simp only [body_hit, BodyMatch, Bool.and_eq_true, Bool.or_eq_true,
    lowerStr_not_isEmpty_iff]
  tauto

theorem attachment_hit_iff (name id : Str) (e : EmailMsg) :
    attachment_hit (lowerStr name) (lowerStr id) e = true ↔
      AttachmentMatch name id e := by
  simp only [attachment_hit, AttachmentMatch, Bool.and_eq_true, Bool.or_eq_true,
    lowerStr_not_isEmpty_iff, List.any_eq_true]
  constructor
  · rintro ⟨hg, t, ht, hp⟩
    exact ⟨t, ht, hp⟩
  · rintro ⟨t, ht, hp⟩
    refine ⟨?_, t, ht, hp⟩
    rcases hp with ⟨h1, _⟩ | ⟨h1, _⟩
    · exact Or.inl h1
    · exact Or.inr h1

/-- C1.  The matcher's location result follows the spec's priority
contract: Subject iff the subject contains the (non-empty, case-folded)
name or id; otherwise Body iff one of them passes the filtered body
search; otherwise Attachment iff some attachment's case-folded text
contains one of them; no match iff none of the three; and for an
identity with both fields empty no location is ever reported (so an
identifier present in both subject and body yields location Subject, by
the first equivalence). -/
theorem claim1_locate_contract (name id : Str) (e : EmailMsg) :
    (locate (lowerStr name) (lowerStr id) e = some MatchSource.subject ↔
      SubjectMatch name id e) ∧
    (locate (lowerStr name) (lowerStr id) e = some MatchSource.body ↔
      ¬SubjectMatch name id e ∧ BodyMatch name id e) ∧
    (locate (lowerStr name) (lowerStr id) e = some MatchSource.attachment ↔
      ¬SubjectMatch name id e ∧ ¬BodyMatch name id e ∧ AttachmentMatch name id e) ∧
    (locate (lowerStr name) (lowerStr id) e = none ↔
      ¬SubjectMatch name id e ∧ ¬BodyMatch name id e ∧ ¬AttachmentMatch name id e) ∧
    (name = [] ∧ id = [] → locate (lowerStr name) (lowerStr id) e = none) := by
  have hs := subject_hit_iff name id e
  have hb := body_hit_iff name id e
  have ha := attachment_hit_iff name id e
  cases hS : subject_hit (lowerStr name) (lowerStr id) e <;>
    cases hB : body_hit (lowerStr name) (lowerStr id) e <;>
      cases hA : attachment_hit (lowerStr name) (lowerStr id) e <;>
        rw [hS] at hs <;> rw [hB] at hb <;> rw [hA] at ha
  all_goals
    simp only [Bool.false_eq_true, false_iff, true_iff] at hs hb ha
  all_goals
    refine ⟨by simp [locate, hS, hB, hA, hs, hb, ha], by simp [locate, hS, hB, hA, hs, hb, ha],
      by simp [locate, hS, hB, hA, hs, hb, ha], by simp [locate, hS, hB, hA, hs, hb, ha], ?_⟩
  all_goals
    rintro ⟨hn, hi⟩
  all_goals
    subst hn
  all_goals
    subst hi
  all_goals
    simp [locate, subject_hit, body_hit, attachment_hit, lowerStr]

/-!
Section: Selection lemmas
-/

/-- The largest date key among the candidates (0 for the empty list). -/
def maxDateKey (l : List (EmailMsg × MatchSource)) : Nat :=
  l.foldr (fun x m => max (dateKey x.1) m) 0

theorem insertByDateDesc_ne_nil (x : EmailMsg × MatchSource)
    (l : List (EmailMsg × MatchSource)) : insertByDateDesc x l ≠ [] := by
  cases l with
  | nil => simp [insertByDateDesc]
  | cons y ys =>
    simp only [insertByDateDesc]
    split <;> simp

theorem sortByDateDesc_eq_nil_iff (l : List (EmailMsg × MatchSource)) :
    sortByDateDesc l = [] ↔ l = [] := by
  cases l with
  | nil => simp [sortByDateDesc]
  | cons x xs =>
    simp only [sortByDateDesc, List.foldr_cons]
    exact ⟨fun h => absurd h (insertByDateDesc_ne_nil x _), fun h => by cases h⟩

theorem mem_insertByDateDesc {y x : EmailMsg × MatchSource}
    {l : List (EmailMsg × MatchSource)} :
    y ∈ insertByDateDesc x l ↔ y = x ∨ y ∈ l := by
  induction l with
  | nil => simp [insertByDateDesc]
  | cons z zs ih =>
    simp only [insertByDateDesc]
    split
    · simp
    · simp [ih]
      tauto

theorem mem_sortByDateDesc {y : EmailMsg × MatchSource}
    {l : List (EmailMsg × MatchSource)} :
    y ∈ sortByDateDesc l ↔ y ∈ l := by
  induction l with
  | nil => simp [sortByDateDesc]
  | cons x xs ih =>
    simp only [sortByDateDesc, List.foldr_cons] at ih ⊢
    rw [mem_insertByDateDesc, ih, List.mem_cons]

theorem dateKey_le_maxDateKey {x : EmailMsg × MatchSource}
    {l : List (EmailMsg × MatchSource)} (h : x ∈ l) :
    dateKey x.1 ≤ maxDateKey l := by
  induction l with
  | nil => cases h
  | cons y ys ih =>
    rcases List.mem_cons.mp h with h1 | h1
    · subst h1
      simp only [maxDateKey, List.foldr_cons]
      omega
    · have := ih h1
      simp only [maxDateKey, List.foldr_cons] at this ⊢
      omega

/-- The head of the stable descending sort is the first element of the
original list whose date key attains the maximum. -/
theorem head_sortByDateDesc_eq_find (l : List (EmailMsg × MatchSource)) (h : l ≠ []) :
    (sortByDateDesc l).head? =
      l.find? (fun x => dateKey x.1 == maxDateKey l) := by
  induction l with
  | nil => exact absurd rfl h
  | cons x xs ih =>
    by_cases hxs : xs = []
    · subst hxs
      simp [sortByDateDesc, insertByDateDesc, maxDateKey, List.find?]
    · have ih2 := ih hxs
      have hs : sortByDateDesc xs ≠ [] := by
        rw [Ne, sortByDateDesc_eq_nil_iff]
        exact hxs
      rcases hm : sortByDateDesc xs with _ | ⟨m, ms⟩
      · exact absurd hm hs
      · have hfind : xs.find? (fun x => dateKey x.1 == maxDateKey xs) = some m := by
          rw [← ih2, hm]
          rfl
        have hkm : dateKey m.1 = maxDateKey xs := by
          have h5 := List.find?_some hfind
          simpa using h5
        have hsort : sortByDateDesc (x :: xs) = insertByDateDesc x (m :: ms) := by
          simp only [sortByDateDesc, List.foldr_cons]
          rw [← hm]
          rfl
        have hmaxcons : maxDateKey (x :: xs) = max (dateKey x.1) (maxDateKey xs) := rfl
        by_cases hc : dateKey m.1 ≤ dateKey x.1
        · have hmax : maxDateKey (x :: xs) = dateKey x.1 := by
            rw [hmaxcons]
            omega
          rw [hsort]
          simp only [insertByDateDesc, if_pos hc]
          rw [List.find?_cons_of_pos _ (by rw [hmax]; exact beq_self_eq_true _)]
          rfl
        · have hmax : maxDateKey (x :: xs) = maxDateKey xs := by
            rw [hmaxcons]
            omega
          rw [hsort]
          simp only [insertByDateDesc, if_neg hc]
          rw [List.find?_cons_of_neg _ (by
            simp only [hmax, beq_iff_eq]
            omega)]
          rw [hmax, hfind]
          simp

/-!
Section: Claim C3
-/

/-- C3 (amended).  For a row with candidates, the resolver selects the
first candidate (in original message order) whose effective date — the
parsed date, with a missing date standing in as the earliest possible
timestamp 0 (Python's `datetime.min`) — attains the maximum; hence the
selected candidate's effective date is at least every other candidate's,
and a candidate with a missing date is selected only when no candidate
has an effective date later than the earliest possible timestamp. -/
theorem claim3_latest_candidate_selected (row : RosterRow) (emails : List EmailMsg)
    (h : row_candidates row emails ≠ []) :
    (row_selected row emails =
      (row_candidates row emails).find?
        (fun x => dateKey x.1 == maxDateKey (row_candidates row emails))) ∧
    (∀ c, row_selected row emails = some c →
      ∀ x ∈ row_candidates row emails, dateKey x.1 ≤ dateKey c.1) ∧
    (∀ c, row_selected row emails = some c → c.1.date = none →
      ∀ x ∈ row_candidates row emails, dateKey x.1 = 0) := by
  have h1 : row_selected row emails =
      (row_candidates row emails).find?
        (fun x => dateKey x.1 == maxDateKey (row_candidates row emails)) :=
    head_sortByDateDesc_eq_find (row_candidates row emails) h
  refine ⟨h1, ?_, ?_⟩
  · intro c hc x hx
    rw [h1] at hc
    have h5 : dateKey c.1 = maxDateKey (row_candidates row emails) := by
      have h6 := List.find?_some hc
      simpa using h6
    rw [h5]
    exact dateKey_le_maxDateKey hx
  · intro c hc hdate x hx
    rw [h1] at hc
    have h2 : dateKey c.1 = maxDateKey (row_candidates row emails) := by
      have h6 := List.find?_some hc
      simpa using h6
    have h3 : dateKey c.1 = 0 := by simp [dateKey, hdate]
    have h4 := dateKey_le_maxDateKey hx
    omega

/-- The concrete roster row of the C3 counterexample and witness
inputs: name "a", no id, all optional columns blank. -/
def rowA : RosterRow := ⟨("a").data, [], [], []⟩

/-- A message whose subject contains "a" and whose Date header was
unparsable. -/
def emailNoDate : EmailMsg := ⟨("a").data, [], [], none⟩

/-- A message whose subject contains "a", dated exactly at the earliest
representable timestamp (Python's `datetime.min`). -/
def emailMinDate : EmailMsg := ⟨("a").data, [], [], some 0⟩

/-- Counterexample for C3 as stated.  Both messages match (subject), the
first has a missing date, the second has a parsed date (the earliest
representable one, `datetime.min`); the resolver selects the first,
i.e. a candidate with a missing date is selected over a candidate that
has a date. -/
theorem claim3_counterexample :
    row_selected rowA [emailNoDate, emailMinDate] =
      some (emailNoDate, MatchSource.subject) ∧
    (emailMinDate, MatchSource.subject) ∈ row_candidates rowA [emailNoDate, emailMinDate] ∧
    emailNoDate.date = none ∧ emailMinDate.date = some 0 := by decide

/-- Witness for C3 at a concrete input. -/
theorem claim3_witness :
    rowA.nameAndId = ("a").data ∧
    row_candidates rowA [emailMinDate, emailNoDate] ≠ [] ∧
    ((row_selected rowA [emailMinDate, emailNoDate] =
      (row_candidates rowA [emailMinDate, emailNoDate]).find?
        (fun x => dateKey x.1 == maxDateKey (row_candidates rowA [emailMinDate, emailNoDate]))) ∧
    (∀ c, row_selected rowA [emailMinDate, emailNoDate] = some c →
      ∀ x ∈ row_candidates rowA [emailMinDate, emailNoDate], dateKey x.1 ≤ dateKey c.1) ∧
    (∀ c, row_selected rowA [emailMinDate, emailNoDate] = some c → c.1.date = none →
      ∀ x ∈ row_candidates rowA [emailMinDate, emailNoDate], dateKey x.1 = 0)) :=
  ⟨by decide, by decide,
    claim3_latest_candidate_selected rowA [emailMinDate, emailNoDate] (by decide)⟩

/-!
Section: Claim C4
-/

/-- C4.  If the 200 characters before the first global occurrence of the
keyword in the body contain "manager", the whole body search fails for
that keyword — no line can rescue it, because the proximity test is
computed from the first global occurrence on every line alike. -/
theorem claim4_manager_window_rejects_entirely (body kw : Str)
    (h : manager_window_hit body kw = true) :
    body_has_valid_match body kw = false := by
  cases hb : body_has_valid_match body kw with
  | false => rfl
  | true =>
    have h2 := ((body_has_valid_match_iff body kw).mp hb).2
    rw [h2] at h
    cases h

/-- Witness for C4 at a concrete body and keyword: "alice" occurs on a
clean line but "manager" precedes the first occurrence. -/
theorem claim4_witness :
    manager_window_hit (("manager alice").data) (("alice").data) = true ∧
    body_has_valid_match (("manager alice").data) (("alice").data) = false :=
  ⟨by decide,
    claim4_manager_window_rejects_entirely (("manager alice").data)
      (("alice").data) (by decide)⟩

/-!
Section: Claim C5
-/

/-- C5.  A body match can only be produced by a line that contains the
keyword, is not header-prefixed (from:/to:/cc:/sent:/subject: after
trimming and case folding) and has no `@` sign: whenever
`body_has_valid_match` succeeds, such a line exists among the body's
lines. -/
theorem claim5_header_and_at_lines_ignored (body kw : Str)
    (h : body_has_valid_match body kw = true) :
    ∃ l ∈ splitCh '\n' body, isSubstr kw l = true ∧
      is_header_line l = false ∧ has_at_sign l = false :=
  ((body_has_valid_match_iff body kw).mp h).1

/-- Witness for C5: a body whose first line is a header line and whose
second line carries the match. -/
theorem claim5_witness :
    body_has_valid_match (("from: alice\nsee alice").data) (("alice").data) = true ∧
    ∃ l ∈ splitCh '\n' (("from: alice\nsee alice").data),
      isSubstr (("alice").data) l = true ∧
        is_header_line l = false ∧ has_at_sign l = false :=
  ⟨by decide,
    claim5_header_and_at_lines_ignored (("from: alice\nsee alice").data)
      (("alice").data) (by decide)⟩

/-!
Section: Claim C8
-/

/-- C8 (amended).  For a resolved row: the scenario column is assigned
exactly when it was previously blank (empty or the pandas NaN rendering
"nan"); the action-correct column is assigned under the same condition —
the blankness of the scenario column, not its own; and the
receipt-confirmed column is assigned whenever the computed scenario is
新增 or 删除, regardless of its previous value. -/
theorem claim8_optional_field_updates (row : RosterRow) (emails : List EmailMsg)
    (e : EmailMsg) (src : MatchSource)
    (h : row_selected row emails = some (e, src)) :
    ((process_row row emails).changeScenario =
      if scen_blank row.changeScenario then determine_scenario (combined_lower e)
      else row.changeScenario) ∧
    ((process_row row emails).actionCorrect =
      if scen_blank row.changeScenario then yesMark else row.actionCorrect) ∧
    ((process_row row emails).receiptConfirmed =
      if determine_scenario (combined_lower e) == kwAdd ||
          determine_scenario (combined_lower e) == kwRemove then yesMark
      else row.receiptConfirmed) := by
  refine ⟨?_, ?_, ?_⟩ <;> simp [process_row, h]

/-- The C8 counterexample roster rows: one with a pre-existing scenario
and a pre-existing non-empty receipt-confirmed value 否, one with a
blank scenario but a pre-existing non-empty action-correct value 否. -/
def c8rowReceipt : RosterRow := ⟨("bob").data, ("新增").data, ("否").data, ("否").data⟩

def c8rowAction : RosterRow := ⟨("bob").data, [], ("否").data, []⟩

/-- The C8 message: subject mentions bob and the keyword 新增, so the
computed scenario is Add. -/
def c8email : EmailMsg := ⟨("bob 新增").data, [], [], none⟩

/-- Counterexample for C8 as stated.  The resolver overwrites a
non-empty pre-existing receipt-confirmed value 否 with 是 when the
computed scenario is Add, and overwrites a non-empty pre-existing
action-correct value 否 with 是 whenever the scenario column was blank. -/
theorem claim8_counterexample :
    c8rowReceipt.receiptConfirmed = ("否").data ∧
    c8rowReceipt.receiptConfirmed ≠ [] ∧
    (process_row c8rowReceipt [c8email]).receiptConfirmed = yesMark ∧
    (process_row c8rowReceipt [c8email]).receiptConfirmed ≠ c8rowReceipt.receiptConfirmed ∧
    c8rowAction.actionCorrect = ("否").data ∧
    (process_row c8rowAction [c8email]).actionCorrect = yesMark ∧
    (process_row c8rowAction [c8email]).actionCorrect ≠ c8rowAction.actionCorrect := by
  decide

/-- Witness for C8 at a concrete input (the receipt-overwriting row). -/
theorem claim8_witness :
    row_selected c8rowReceipt [c8email] = some (c8email, MatchSource.subject) ∧
    ((process_row c8rowReceipt [c8email]).receiptConfirmed =
      if determine_scenario (combined_lower c8email) == kwAdd ||
          determine_scenario (combined_lower c8email) == kwRemove then yesMark
      else c8rowReceipt.receiptConfirmed) :=
  ⟨by decide,
    (claim8_optional_field_updates c8rowReceipt [c8email] c8email MatchSource.subject
      (by decide)).2.2⟩

/-!
Section: Claim C9
-/

/-- An attachment returned by `find_matching_attachment` has non-empty
text: its lower-cased text contains a non-empty needle. -/
theorem find_matching_attachment_some_text_ne_nil {nl il : Str} {e : EmailMsg}
    {a : AttachmentUnit} (h : find_matching_attachment nl il e = some a) :
    a.text ≠ [] := by
  have hp := List.find?_some h
  intro hnil
  rw [hnil] at hp
  cases hn : nl <;> cases hi : il <;> rw [hn, hi] at hp <;>
    simp_all [lowerStr, isSubstr, List.isPrefixOf]

/-- C9.  The evidence snippet of a resolved row is the first 500
characters of the snippet source text, hence at most 500 characters
long; and the snippet source text is the body for a body match, the body
(or, if the body is empty, the subject) for a subject match, and for an
attachment match the text of the first attachment containing the
identifier, with the body as fallback when no attachment contains it. -/
theorem claim9_snippet_contract (row : RosterRow) (emails : List EmailMsg)
    (e : EmailMsg) (src : MatchSource)
    (h : row_selected row emails = some (e, src)) :
    (process_row row emails).matchEvidence.length ≤ 500 ∧
    (process_row row emails).matchEvidence =
      (snippet_source_text (row_identity row).1 (row_identity row).2 e src).take 500 ∧
    (src = MatchSource.body →
      snippet_source_text (row_identity row).1 (row_identity row).2 e src = e.body) ∧
    (src = MatchSource.subject →
      snippet_source_text (row_identity row).1 (row_identity row).2 e src =
        if e.body = [] then e.subject else e.body) ∧
    (∀ a, src = MatchSource.attachment →
      find_matching_attachment (row_identity row).1 (row_identity row).2 e = some a →
      snippet_source_text (row_identity row).1 (row_identity row).2 e src = a.text) ∧
    (src = MatchSource.attachment →
      find_matching_attachment (row_identity row).1 (row_identity row).2 e = none →
      snippet_source_text (row_identity row).1 (row_identity row).2 e src = e.body) := by
  have h2 : (process_row row emails).matchEvidence =
      (snippet_source_text (row_identity row).1 (row_identity row).2 e src).take 500 := by
    simp only [process_row, h]
    by_cases ht : snippet_source_text (row_identity row).1 (row_identity row).2 e src = []
    · simp [ht]
    · simp [ht]
  refine ⟨?_, h2, ?_, ?_, ?_, ?_⟩
  · rw [h2]
    exact List.length_take_le 500 _
  · intro hsrc
    subst hsrc
    rfl
  · intro hsrc
    subst hsrc
    rfl
  · intro a hsrc hfind
    subst hsrc
    have hne := find_matching_attachment_some_text_ne_nil hfind
    simp [snippet_source_text, hfind, hne]
  · intro hsrc hfind
    subst hsrc
    simp [snippet_source_text, hfind]

/-- The C9 witness row and message (a subject match with a non-empty
body). -/
def c9row : RosterRow := ⟨("bob").data, [], [], []⟩

def c9email : EmailMsg := ⟨("bob").data, ("hello bob").data, [], none⟩

/-- Witness for C9 at a concrete input. -/
theorem claim9_witness :
    row_selected c9row [c9email] = some (c9email, MatchSource.subject) ∧
    (process_row c9row [c9email]).matchEvidence.length ≤ 500 ∧
    (process_row c9row [c9email]).matchEvidence =
      (snippet_source_text (row_identity c9row).1 (row_identity c9row).2 c9email
        MatchSource.subject).take 500 :=
  ⟨by decide,
    (claim9_snippet_contract c9row [c9email] c9email MatchSource.subject (by decide)).1,
    (claim9_snippet_contract c9row [c9email] c9email MatchSource.subject (by decide)).2.1⟩

/-!
Section: Claim C10
-/

/-- An attachment-located match implies the attachment check fired. -/
theorem attachment_hit_of_locate {nl il : Str} {e : EmailMsg}
    (h : locate nl il e = some MatchSource.attachment) :
    attachment_hit nl il e = true := by
  unfold locate at h
  split_ifs at h with h1 h2 h3
  · simp at h
  · simp at h
  · exact h3

/-- A candidate in the `matches` list carries the location the matcher
computed for its message. -/
theorem locate_of_mem_match_candidates {nl il : Str} {emails : List EmailMsg}
    {e : EmailMsg} {src : MatchSource}
    (h : (e, src) ∈ match_candidates nl il emails) :
    locate nl il e = some src := by
  rcases List.mem_filterMap.mp h with ⟨e2, _, hmap⟩
  rcases Option.map_eq_some'.mp hmap with ⟨s2, hs2, heq⟩
  have he : e2 = e := congrArg Prod.fst heq
  have hsrc : s2 = src := congrArg Prod.snd heq
  rw [← he, ← hsrc] at *
  exact hs2

/-- C10.  Whenever the selected candidate's location is Attachment, the
snippet construction's fallback branch is unreachable: some attachment
of the selected message contains the identifier, so the search for the
first such attachment succeeds, its text is non-empty, and the snippet
source is exactly that attachment's text. -/
theorem claim10_attachment_fallback_unreachable (row : RosterRow)
    (emails : List EmailMsg) (e : EmailMsg)
    (h : row_selected row emails = some (e, MatchSource.attachment)) :
    ∃ a, find_matching_attachment (row_identity row).1 (row_identity row).2 e = some a ∧
      a.text ≠ [] ∧
      snippet_source_text (row_identity row).1 (row_identity row).2 e
        MatchSource.attachment = a.text := by
  have hmem : (e, MatchSource.attachment) ∈ row_candidates row emails := by
    rcases hl : sortByDateDesc (row_candidates row emails) with _ | ⟨x, xs⟩
    · rw [row_selected, hl] at h
      cases h
    · rw [row_selected, hl] at h
      have hx : x = (e, MatchSource.attachment) := by
        simpa using h
      rw [← hx]
      exact mem_sortByDateDesc.mp (by rw [hl]; exact List.mem_cons_self x xs)
  have hloc : locate (row_identity row).1 (row_identity row).2 e =
      some MatchSource.attachment := locate_of_mem_match_candidates hmem
  have hhit := attachment_hit_of_locate hloc
  have hex : ∃ t ∈ attachments_lower e,
      ((!(row_identity row).1.isEmpty && isSubstr (row_identity row).1 t) ||
        (!(row_identity row).2.isEmpty && isSubstr (row_identity row).2 t)) = true := by
    have := (Bool.and_eq_true _ _).mp hhit
    exact List.any_eq_true.mp this.2
  rcases hex with ⟨t, htmem, hp⟩
  rcases List.mem_map.mp htmem with ⟨a, hamem, hta⟩
  have hfs : (e.attachments.find? (fun a =>
      (!(row_identity row).1.isEmpty && isSubstr (row_identity row).1 (lowerStr a.text)) ||
        (!(row_identity row).2.isEmpty && isSubstr (row_identity row).2 (lowerStr a.text)))).isSome := by
    refine List.find?_isSome.mpr ⟨a, hamem, ?_⟩
    rw [hta]
    exact hp
  rcases ho : e.attachments.find? (fun a =>
      (!(row_identity row).1.isEmpty && isSubstr (row_identity row).1 (lowerStr a.text)) ||
        (!(row_identity row).2.isEmpty && isSubstr (row_identity row).2 (lowerStr a.text))) with
    _ | a2
  · rw [ho] at hfs
    cases hfs
  · have hfind : find_matching_attachment (row_identity row).1 (row_identity row).2 e =
        some a2 := ho
    have hne := find_matching_attachment_some_text_ne_nil hfind
    exact ⟨a2, hfind, hne, by simp [snippet_source_text, hfind, hne]⟩

/-- The C10 witness row and message: the identifier occurs only in an
attachment. -/
def c10row : RosterRow := ⟨("bob").data, [], [], []⟩

def c10email : EmailMsg :=
  ⟨("x").data, [], [⟨("f.txt").data, ("bob here").data⟩], none⟩

/-- Witness for C10 at a concrete input. -/
theorem claim10_witness :
    row_selected c10row [c10email] = some (c10email, MatchSource.attachment) ∧
    ∃ a, find_matching_attachment (row_identity c10row).1 (row_identity c10row).2
          c10email = some a ∧
      a.text ≠ [] ∧
      snippet_source_text (row_identity c10row).1 (row_identity c10row).2 c10email
        MatchSource.attachment = a.text :=
  ⟨by decide,
    claim10_attachment_fallback_unreachable c10row [c10email] c10email (by decide)⟩

/-!
Section: Split and strip lemmas (for C6 and C7)
-/

theorem splitCh_ne_nil (sep : Char) (s : Str) : splitCh sep s ≠ [] := by
  cases s with
  | nil => simp [splitCh]
  | cons c rest =>
    by_cases hc : c = sep
    · simp [splitCh, hc]
    · simp only [splitCh, if_neg hc]
      rcases hr : splitCh sep rest with _ | ⟨piece, more⟩ <;> simp

theorem splitCh_length (sep : Char) (s : Str) :
    (splitCh sep s).length = s.countP (fun c => c == sep) + 1 := by
  induction s with
  | nil => simp [splitCh]
  | cons c rest ih =>
    by_cases hc : c = sep
    · subst hc
      simp [splitCh, List.countP_cons, ih]
    · rcases hr : splitCh sep rest with _ | ⟨piece, more⟩
      · exact absurd hr (splitCh_ne_nil sep rest)
      · rw [hr] at ih
        simp only [List.length_cons] at ih
        simp [splitCh, hc, List.countP_cons, beq_eq_false_iff_ne.mpr hc, hr]
        omega

theorem splitCh_single {sep : Char} {s q : Str} (h : splitCh sep s = [q]) :
    s = q ∧ sep ∉ q := by
  induction s generalizing q with
  | nil =>
    simp only [splitCh] at h
    injection h with h1 _
    rw [← h1]
    exact ⟨rfl, by simp⟩
  | cons c rest ih =>
    by_cases hc : c = sep
    · simp only [splitCh, if_pos hc] at h
      injection h with h1 h2
      exact absurd h2 (splitCh_ne_nil sep rest)
    · rcases hr : splitCh sep rest with _ | ⟨piece, more⟩
      · exact absurd hr (splitCh_ne_nil sep rest)
      · simp only [splitCh, if_neg hc, hr] at h
        injection h with h1 h2
        obtain ⟨hrest, hnp⟩ := ih (q := piece) (by rw [hr, h2])
        constructor
        · rw [← h1, hrest]
        · rw [← h1]
          intro hmem
          rcases List.mem_cons.mp hmem with h3 | h3
          · exact hc h3.symm
          · exact hnp h3

theorem splitCh_pair {sep : Char} {s q0 q1 : Str} (h : splitCh sep s = [q0, q1]) :
    s = q0 ++ sep :: q1 ∧ sep ∉ q0 ∧ sep ∉ q1 := by
  induction s generalizing q0 with
  | nil => simp [splitCh] at h
  | cons c rest ih =>
    by_cases hc : c = sep
    · simp only [splitCh, if_pos hc] at h
      injection h with h1 h2
      obtain ⟨hrest, hnp⟩ := splitCh_single h2
      refine ⟨?_, ?_, hnp⟩
      · rw [← h1, hc, hrest]
        rfl
      · rw [← h1]
        simp
    · rcases hr : splitCh sep rest with _ | ⟨piece, more⟩
      · exact absurd hr (splitCh_ne_nil sep rest)
      · simp only [splitCh, if_neg hc, hr] at h
        injection h with h1 h2
        obtain ⟨hrest, hnp0, hnp1⟩ := ih (by rw [hr, h2])
        refine ⟨?_, ?_, hnp1⟩
        · rw [← h1, hrest]
          rfl
        · rw [← h1]
          intro hmem
          rcases List.mem_cons.mp hmem with h3 | h3
          · exact hc h3.symm
          · exact hnp0 h3

theorem takeWhile_append_stop {p : Char → Bool} {q0 : Str} (x : Char) (q1 : Str)
    (hall : ∀ c ∈ q0, p c = true) (hx : p x = false) :
    (q0 ++ x :: q1).takeWhile p = q0 := by
  induction q0 with
  | nil => simp [List.takeWhile_cons, hx]
  | cons c t ih =>
    have hc := hall c (List.mem_cons_self c t)
    simp only [List.cons_append, List.takeWhile_cons, hc, if_true]
    rw [ih (fun d hd => hall d (List.mem_cons_of_mem c hd))]

theorem drop_append_cons (q0 : Str) (x : Char) (q1 : Str) :
    (q0 ++ x :: q1).drop (q0.length + 1) = q1 := by
  have h2 : q0 ++ x :: q1 = (q0 ++ [x]) ++ q1 := by simp
  have hlen : (q0 ++ [x]).length = q0.length + 1 := by simp
  rw [h2, ← hlen, List.drop_left]

theorem dropWhile_head_not {p : Char → Bool} {l : Str} {c : Char} {t : Str}
    (h : l.dropWhile p = c :: t) : p c = false := by
  induction l with
  | nil => simp [List.dropWhile] at h
  | cons d r ih =>
    cases hpd : p d with
    | true =>
      rw [List.dropWhile_cons, hpd] at h
      simp only [if_true] at h
      exact ih h
    | false =>
      rw [List.dropWhile_cons, hpd] at h
      simp only [Bool.false_eq_true, if_false] at h
      injection h with h1 _
      rw [← h1]
      exact hpd

theorem pyStrip_head_not_ws {v : Str} {c : Char} {t : Str}
    (h : pyStrip v = c :: t) : c.isWhitespace = false :=
  dropWhile_head_not (by simpa [pyStrip, dropWS] using h)

theorem pyStrip_getLast_not_ws {v : Str} {c : Char}
    (h : (pyStrip v).getLast? = some c) : c.isWhitespace = false := by
  have hr : pyStrip v = dropWS ((dropWS v.reverse).reverse) := rfl
  rw [hr] at h
  have hne : dropWS ((dropWS v.reverse).reverse) ≠ [] := by
    intro h0
    rw [h0] at h
    cases h
  obtain ⟨pre, hpre⟩ :=
    (List.dropWhile_suffix (p := Char.isWhitespace)
      (l := (dropWS v.reverse).reverse) : _ <:+ _)
  have hwl : ((dropWS v.reverse).reverse).getLast? = some c := by
    rw [← hpre, List.getLast?_append_of_ne_nil pre (by simpa [dropWS] using hne)]
    simpa [dropWS] using h
  rw [List.getLast?_reverse] at hwl
  rcases hd : dropWS v.reverse with _ | ⟨d, t2⟩
  · rw [hd] at hwl
    cases hwl
  · rw [hd] at hwl
    injection hwl with h1
    rw [← h1]
    exact dropWhile_head_not (by simpa [dropWS] using hd)

theorem pyStrip_eq_nil_all_ws {q : Str} (h : pyStrip q = []) :
    ∀ c ∈ q, c.isWhitespace = true := by
  intro c hc
  have hsplit := List.takeWhile_append_dropWhile
    (p := Char.isWhitespace) (l := q.reverse)
  have hc2 : c ∈ q.reverse := List.mem_reverse.mpr hc
  rw [← hsplit] at hc2
  rcases List.mem_append.mp hc2 with h1 | h1
  · exact List.mem_takeWhile_imp h1
  · have hall : ∀ x ∈ (dropWS q.reverse).reverse, Char.isWhitespace x :=
      List.dropWhile_eq_nil_iff.mp (by simpa [pyStrip, dropWS] using h)
    exact hall c (List.mem_reverse.mpr h1)

theorem getLast?_mem_list {l : Str} {c : Char} (h : l.getLast? = some c) : c ∈ l := by
  have h2 : c ∈ l.getLast? := Option.mem_def.mpr h
  obtain ⟨hne, hc⟩ := List.mem_getLast?_eq_getLast h2
  rw [hc]
  exact List.getLast_mem hne

/-!
Section: Claim C6
-/

/-- The number of commas in a raw field. -/
def commaCount (s : Str) : Nat := s.countP (fun c => c == ',')

/-- Spec-side "split at the first comma": the part before it. -/
def beforeComma (s : Str) : Str := s.takeWhile (fun c => !(c == ','))

/-- Spec-side "split at the first comma": the part after it. -/
def afterComma (s : Str) : Str := s.drop ((beforeComma s).length + 1)

/-- C6 (amended).  The identity derivation, characterized by the comma
count of the trimmed raw value: a blank value yields both fields empty;
a value with exactly one comma is split at that comma, each side
trimmed, and the first side becomes the id iff it contains a digit
(otherwise the second side becomes the id, whether or not it contains a
digit); a value with no comma or with two or more commas becomes, whole
and trimmed, the name, with an empty id. -/
theorem claim6_identity_derivation (value : Str) :
    (pyStrip value = [] → parse_name_and_id value = ([], [])) ∧
    (commaCount (pyStrip value) = 1 →
      parse_name_and_id value =
        if hasDigit (pyStrip (beforeComma (pyStrip value))) then
          (pyStrip (afterComma (pyStrip value)), pyStrip (beforeComma (pyStrip value)))
        else
          (pyStrip (beforeComma (pyStrip value)), pyStrip (afterComma (pyStrip value)))) ∧
    (pyStrip value ≠ [] → commaCount (pyStrip value) ≠ 1 →
      parse_name_and_id value = (pyStrip value, [])) := by
  refine ⟨?_, ?_, ?_⟩
  · intro h
    simp [parse_name_and_id, h]
  · intro hcount
    have hs_ne : pyStrip value ≠ [] := by
      intro h0
      rw [h0] at hcount
      simp [commaCount] at hcount
    have hlen : (splitCh ',' (pyStrip value)).length = 2 := by
      rw [splitCh_length]
      unfold commaCount at hcount
      omega
    rcases hsp : splitCh ',' (pyStrip value) with _ | ⟨q0, qs⟩
    · exact absurd hsp (splitCh_ne_nil ',' (pyStrip value))
    · rcases qs with _ | ⟨q1, qs2⟩
      · rw [hsp] at hlen
        simp at hlen
      · rcases qs2 with _ | ⟨q2, qs3⟩
        · obtain ⟨hseq, hn0, hn1⟩ := splitCh_pair hsp
          have hbefore : beforeComma (pyStrip value) = q0 := by
            unfold beforeComma
            rw [hseq]
            refine takeWhile_append_stop ',' q1 ?_ (by simp)
            intro c hc
            have hne : ¬(c = ',') := fun h3 => hn0 (h3 ▸ hc)
            simp [hne]
          have hafter : afterComma (pyStrip value) = q1 := by
            unfold afterComma
            rw [hbefore, hseq, drop_append_cons]
          simp [parse_name_and_id, hs_ne, hsp, hbefore, hafter]
        · rw [hsp] at hlen
          simp at hlen
  · intro hne hcount
    have hlen : (splitCh ',' (pyStrip value)).length =
        commaCount (pyStrip value) + 1 := splitCh_length ',' (pyStrip value)
    rcases hsp : splitCh ',' (pyStrip value) with _ | ⟨q0, qs⟩
    · exact absurd hsp (splitCh_ne_nil ',' (pyStrip value))
    · rcases qs with _ | ⟨q1, qs2⟩
      · simp [parse_name_and_id, hne, hsp]
      · rcases qs2 with _ | ⟨q2, qs3⟩
        · rw [hsp] at hlen
          simp at hlen
          omega
        · simp [parse_name_and_id, hne, hsp]

/-- Counterexample for C6 as stated.  The raw value "a,1,b" has its
first comma after "a"; splitting there would give name "a" and id
"1,b", but the code, seeing three comma-separated parts, returns the
whole value as the name with an empty id. -/
theorem claim6_counterexample :
    parse_name_and_id (("a,1,b").data) = ((("a,1,b").data), ([] : Str)) ∧
    parse_name_and_id (("a,1,b").data) ≠ ((("a").data), (("1,b").data)) := by decide

/-!
Section: Claim C7
-/

/-- C7 (amended).  For every raw roster value whose trimmed form is
non-empty and is not the single-character string ",", at least one of
the derived name and id is non-empty.  (The trimmed value "," is the
one exception: it splits into two parts that are both empty after
trimming.) -/
theorem claim7_identity_nonempty (value : Str)
    (h1 : pyStrip value ≠ []) (h2 : pyStrip value ≠ ([','] : Str)) :
    (parse_name_and_id value).1 ≠ [] ∨ (parse_name_and_id value).2 ≠ [] := by
  rcases hsp : splitCh ',' (pyStrip value) with _ | ⟨q0, qs⟩
  · exact absurd hsp (splitCh_ne_nil ',' (pyStrip value))
  · rcases qs with _ | ⟨q1, qs2⟩
    · left
      simp [parse_name_and_id, h1, hsp]
    · rcases qs2 with _ | ⟨q2, qs3⟩
      · obtain ⟨hseq, hn0, hn1⟩ := splitCh_pair hsp
        have hkey : ¬(pyStrip q0 = [] ∧ pyStrip q1 = []) := by
          rintro ⟨hq0, hq1⟩
          have hall0 := pyStrip_eq_nil_all_ws hq0
          have hall1 := pyStrip_eq_nil_all_ws hq1
          have hq0nil : q0 = [] := by
            rcases hq0s : q0 with _ | ⟨c, t⟩
            · rfl
            · exfalso
              have hhead : pyStrip value = c :: (t ++ ',' :: q1) := by
                rw [hseq, hq0s]
                rfl
              have hnw := pyStrip_head_not_ws hhead
              have hw := hall0 c (by rw [hq0s]; exact List.mem_cons_self c t)
              rw [hw] at hnw
              cases hnw
          have hq1nil : q1 = [] := by
            rcases hq1s : q1 with _ | ⟨d, t1⟩
            · rfl
            · exfalso
              rcases hgl : (d :: t1).getLast? with _ | c
              · simp at hgl
              · have hc1 : c ∈ (d :: t1) := getLast?_mem_list hgl
                have hlast : (pyStrip value).getLast? = some c := by
                  rw [hseq, hq1s]
                  rw [List.getLast?_append_of_ne_nil q0 (by simp)]
                  rw [List.getLast?_cons_cons]
                  exact hgl
                have hnw := pyStrip_getLast_not_ws hlast
                have hw := hall1 c (by rw [hq1s]; exact hc1)
                rw [hw] at hnw
                cases hnw
          rw [hq0nil, hq1nil] at hseq
          exact h2 (by rw [hseq]; rfl)
        rw [Classical.not_and_iff_or_not_not] at hkey
        simp only [parse_name_and_id, hsp]
        rw [if_neg h1]
        simp only [List.map_cons, List.map_nil]
        by_cases hd : hasDigit (pyStrip q0)
        · simp only [if_pos hd]
          tauto
        · simp only [if_neg hd]
          tauto
      · left
        simp [parse_name_and_id, h1, hsp]

/-- Counterexample for C7 as stated.  The raw value "," is non-empty,
yet both derived fields are empty: it splits into two parts that are
empty after trimming. -/
theorem claim7_counterexample :
    parse_name_and_id (([','] : Str)) = (([] : Str), ([] : Str)) ∧
    ([','] : Str) ≠ ([] : Str) := by decide

/-- Witness for C7 at a concrete input. -/
theorem claim7_witness :
    pyStrip (("ab").data) ≠ [] ∧ pyStrip (("ab").data) ≠ ([','] : Str) ∧
    ((parse_name_and_id (("ab").data)).1 ≠ [] ∨
      (parse_name_and_id (("ab").data)).2 ≠ []) :=
  ⟨by decide, by decide,
    claim7_identity_nonempty (("ab").data) (by decide) (by decide)⟩
